import Mathlib

/-!
Verification of the "Smart File Converter" app (src/app.py) against its
specification.  The app is a linear per-file pipeline: detect the format from
the filename extension, parse into a pandas DataFrame, optionally remove
duplicate rows and fill missing cells, optionally chart, and serialize to a
chosen target format.  We embed each step as a pure Lean function; library
behaviour that the script merely invokes (the pandas readers, the
serializers raising) is modelled as explicit inputs to the pipeline.
-/

namespace App

/-- A scalar cell value of a parsed table; pandas scalars, with numbers
modelled as integers. -/
inductive Value where
  | vnum (n : Int)
  | vstr (s : String)
  | vbool (b : Bool)
deriving DecidableEq, Repr

/-- A row of cells; a missing cell (NaN/None in pandas) is `none`. -/
abbrev Row := List (Option Value)

/-- Inferred column dtype, to the granularity the app observes it
(`select_dtypes(include="number")`): numeric or object/text. -/
inductive DType where
  | tnum
  | tobj
deriving DecidableEq, Repr

/-- A pandas DataFrame as the app uses it: named columns with inferred
dtypes, and row-ordered rectangular data. -/
structure Table where
  cols : List String
  dtypes : List DType
  rows : List Row
deriving DecidableEq, Repr

/-- The user-visible outputs the script produces via st.error / st.warning /
st.write / st.success / st.info, with their semantic payloads. -/
inductive Msg where
  | errUnsupported (ext : String)
  | errReading (name : String) (err : String)
  | warnEmpty (name : String)
  | fileDetails (name : String) (size : Nat)
  | dupRemoved (count : Nat)
  | noDups
  | missFilled (count : Nat)
  | noMissing
  | chartShown (name : String)
  | warnNoNumeric (name : String)
  | convertSuccess (name : String) (target : String)
  | errConverting (name : String) (err : String)
  | batchComplete
  | noneConverted
deriving DecidableEq, Repr

/-- The target format chosen in the radio widget. -/
inductive Target where
  | csv
  | excel
  | json
  | txt
deriving DecidableEq, Repr

/-- The radio labels, as in `["CSV", "Excel", "JSON", "TXT"]`. -/
def targetLabel : Target → String
  | Target.csv => "CSV"
  | Target.excel => "Excel"
  | Target.json => "JSON"
  | Target.txt => "TXT"

/-- `str.lower()`. -/
def lowerStr (s : String) : String :=
  ⟨s.data.map Char.toLower⟩

/-- Basename of a path (the characters after the last '/'), as scanned by
`os.path.splitext`. -/
def basenameChars (l : List Char) : List Char :=
  l.foldl (fun acc c => if c = '/' then [] else acc ++ [c]) []

/-- Drop the leading dots of a basename; `os.path.splitext` never treats a
leading dot as the start of an extension. -/
def dropLeadingDots : List Char → List Char
  | [] => []
  | c :: cs => if c = '.' then dropLeadingDots cs else c :: cs

/-- The suffix starting at the last '.' of the list, if any. -/
def lastDotSuffix : List Char → Option (List Char)
  | [] => none
  | c :: cs =>
    match lastDotSuffix cs with
    | some t => some t
    | none => if c = '.' then some (c :: cs) else none

/-- The extension component of `os.path.splitext`: the suffix from the last
dot of the basename, provided some non-dot character precedes it. -/
def splitextExtChars (l : List Char) : List Char :=
  match lastDotSuffix (dropLeadingDots (basenameChars l)) with
  | some t => t
  | none => []

/-- Line 44: `file_extension = os.path.splitext(file.name)[-1].lower()`. -/
def detectExt (name : String) : String :=
  lowerStr ⟨splitextExtChars name.data⟩

/-- Line 30: `SUPPORTED_TYPES = {".csv", ".xlsx", ".json", ".txt"}`. -/
def SUPPORTED_TYPES : List String :=
  [".csv", ".xlsx", ".json", ".txt"]

/-- Python `str.replace`, which substitutes every non-overlapping occurrence
of `pat` left to right.  Structured with a fuel argument (the length of the
remaining text bounds the number of steps); the pattern here is always a
supported extension, hence nonempty, so the fuel never runs out. -/
def replaceAllFuel (pat rep : List Char) : Nat → List Char → List Char
  | _, [] => []
  | 0, s => s
  | fuel + 1, c :: cs =>
    if pat ≠ [] ∧ pat.isPrefixOf (c :: cs) then
      rep ++ replaceAllFuel pat rep fuel ((c :: cs).drop pat.length)
    else
      c :: replaceAllFuel pat rep fuel cs

/-- `s.replace(pat, rep)` on character lists. -/
def replaceAllChars (pat rep s : List Char) : List Char :=
  replaceAllFuel pat rep s.length s

/-- Lines 112-116: the download filename.  `Excel` maps to ".xlsx", the
other targets to "." plus the lower-cased radio label; the substitution is
Python `str.replace` applied to the (lower-cased) detected extension. -/
def deriveFileName (name ext : String) (target : Target) : String :=
  if target = Target.excel then
    ⟨replaceAllChars ext.data ".xlsx".data name.data⟩
  else
    ⟨replaceAllChars ext.data ("." ++ lowerStr (targetLabel target)).data name.data⟩

/-- `df.empty`: true when either axis has length zero. -/
def tableEmpty (t : Table) : Bool :=
  t.rows.isEmpty || t.cols.isEmpty

/-- `df.duplicated()` with the default keep-first: a row is flagged when it
equals some earlier row; `seen` accumulates the rows already scanned. -/
def dupFlagsAux (seen : List Row) : List Row → List Bool
  | [] => []
  | r :: rs => decide (r ∈ seen) :: dupFlagsAux (r :: seen) rs

/-- `df.duplicated()` applied to the whole row list. -/
def dupFlags (rows : List Row) : List Bool :=
  dupFlagsAux [] rows

/-- Line 79: `duplicate_count = df.duplicated().sum()`. -/
def dupCount (rows : List Row) : Nat :=
  (dupFlags rows).count true

/-- `df.drop_duplicates()` with the default keep-first, on the rows after
`seen`: keep a row exactly when it equals no earlier row. -/
def dedupAux (seen : List Row) : List Row → List Row
  | [] => []
  | r :: rs =>
    if r ∈ seen then dedupAux (r :: seen) rs else r :: dedupAux (r :: seen) rs

/-- Line 81: `df.drop_duplicates(inplace=True)` on the row list. -/
def dedupRows (rows : List Row) : List Row :=
  dedupAux [] rows

/-- Lines 78-84: the duplicate-removal block.  The count is computed before
dropping; the table is only modified when the count is positive. -/
def dedupStep (df : Table) : Table × List Msg :=
  let duplicateCount := dupCount df.rows
  if 0 < duplicateCount then
    (⟨df.cols, df.dtypes, dedupRows df.rows⟩, [Msg.dupRemoved duplicateCount])
  else
    (df, [Msg.noDups])

/-- Line 87: `missing_count = df.isnull().sum().sum()` — the total number of
absent cells over the whole table. -/
def missingCount (t : Table) : Nat :=
  (t.rows.map (fun r => r.countP (fun c => c.isNone))).sum

/-- `fillna("Missing")` on one cell. -/
def fillCell : Option Value → Option Value
  | none => some (Value.vstr "Missing")
  | some v => some v

/-- Whether column `j` contains an absent cell (rows are rectangular, so the
default is never consulted for a valid column index). -/
def colHasNone (t : Table) (j : Nat) : Bool :=
  t.rows.any (fun r => (r.getD j (some (Value.vbool false))).isNone)

/-- `fillna` with a string turns every column that actually contained a null
into an object column; untouched columns keep their dtype. -/
def fillDtypes (t : Table) : List DType :=
  t.dtypes.enum.map (fun p => if colHasNone t p.1 then DType.tobj else p.2)

/-- Lines 86-92: the missing-value block.  The count is computed first; the
table is only modified when the count is positive. -/
def fillStep (df : Table) : Table × List Msg :=
  let missingCnt := missingCount df
  if 0 < missingCnt then
    (⟨df.cols, fillDtypes df, df.rows.map (fun r => r.map fillCell)⟩,
      [Msg.missFilled missingCnt])
  else
    (df, [Msg.noMissing])

/-- Indices of the columns selected by `df.select_dtypes(include="number")`. -/
def numericIdx (t : Table) : List Nat :=
  t.dtypes.enum.filterMap (fun p => if p.2 = DType.tnum then some p.1 else none)

/-- Lines 96-101: the chart block; `numeric_df.empty` holds when there are
no rows or no numeric columns. -/
def chartStep (name : String) (df : Table) : List Msg :=
  if df.rows.isEmpty || (numericIdx df).isEmpty then
    [Msg.warnNoNumeric name]
  else
    [Msg.chartShown name]

/-- A JSON scalar as produced by `df.to_json`. -/
inductive JsonVal where
  | jnull
  | jnum (n : Int)
  | jstr (s : String)
  | jbool (b : Bool)
deriving DecidableEq, Repr

/-- How `to_json` renders one cell: an absent cell becomes the null token. -/
def cellToJson : Option Value → JsonVal
  | none => JsonVal.jnull
  | some (Value.vnum n) => JsonVal.jnum n
  | some (Value.vstr s) => JsonVal.jstr s
  | some (Value.vbool b) => JsonVal.jbool b

/-- `df.to_json(orient="records")`: one object per row, keys the column
names in order. -/
def toJsonRecords (t : Table) : List (List (String × JsonVal)) :=
  t.rows.map (fun r => t.cols.zip (r.map cellToJson))

/-- The serialized form of an export, at the structural granularity the
script fixes: separator-delimited text with header and no index column,
a single-sheet workbook, or indented record-oriented JSON. -/
inductive ExportContent where
  | sepValues (sep : Char) (cols : List String) (rows : List Row)
  | xlsxSheet (cols : List String) (rows : List Row)
  | jsonRecords (indent : Nat) (records : List (List (String × JsonVal)))
deriving DecidableEq, Repr

/-- Lines 119-131: the serializer and MIME type for each target. -/
def serialize (target : Target) (df : Table) : ExportContent × String :=
  match target with
  | Target.csv =>
    (ExportContent.sepValues ',' df.cols df.rows, "text/csv")
  | Target.excel =>
    (ExportContent.xlsxSheet df.cols df.rows,
      "application/vnd.openxmlformats-officedocument.spreadsheetml.sheet")
  | Target.json =>
    (ExportContent.jsonRecords 4 (toJsonRecords df), "application/json")
  | Target.txt =>
    (ExportContent.sepValues '\t' df.cols df.rows, "text/plain")

/-- The downloadable artifact: filename, MIME type, serialized content. -/
structure Artifact where
  fileName : String
  mime : String
  content : ExportContent
deriving DecidableEq, Repr

/-- Lines 109-142: the convert-and-download block.  `exportError` models
whether the library serializer raises (the script only observes the raised
message); on failure the artifact is withheld and the error reported, on
success the download button and the success message appear. -/
def convertBlock (df : Table) (name ext : String) (target : Target)
    (exportError : Option String) : Table × Option Artifact × List Msg :=
  let fileName := deriveFileName name ext target
  match exportError with
  | some e => (df, none, [Msg.errConverting name e])
  | none =>
    let sm := serialize target df
    (df, some ⟨fileName, sm.2, sm.1⟩,
      [Msg.convertSuccess name (targetLabel target)])

/-- One uploaded file together with the state of its widgets and of the
library calls the script makes for it: `parse` is the outcome of the pandas
reader on its bytes, `exportError` the outcome of the serializer. -/
structure FileInput where
  name : String
  size : Nat
  parse : Except String Table
  removeDuplicates : Bool
  fillMissingValues : Bool
  showChart : Bool
  convertClicked : Bool
  target : Target
  exportError : Option String

/-- What one iteration of the upload loop produces: the messages shown, the
final state of the file's table (none when the file was skipped), and the
download artifact if one was offered. -/
structure FileResult where
  messages : List Msg
  finalTable : Option Table
  artifact : Option Artifact
deriving DecidableEq, Repr

/-- Lines 43-142: the body of the per-file loop.  Unsupported extension,
parse error and empty table each skip the file after a single message; the
surviving table flows through the optional cleaning steps into the chart and
convert blocks. -/
def processFile (f : FileInput) : FileResult :=
  let ext := detectExt f.name
  if ext ∉ SUPPORTED_TYPES then
    ⟨[Msg.errUnsupported ext], none, none⟩
  else
    match f.parse with
    | Except.error e => ⟨[Msg.errReading f.name e], none, none⟩
    | Except.ok df0 =>
      if tableEmpty df0 then
        ⟨[Msg.warnEmpty f.name], none, none⟩
      else
        let p1 := if f.removeDuplicates then dedupStep df0 else (df0, [])
        let p2 := if f.fillMissingValues then fillStep p1.1 else (p1.1, [])
        let chartMsgs := if f.showChart then chartStep f.name p2.1 else []
        let p3 :=
          if f.convertClicked then
            convertBlock p2.1 f.name ext f.target f.exportError
          else
            (p2.1, none, [])
        ⟨Msg.fileDetails f.name f.size :: (p1.2 ++ p2.2 ++ chartMsgs ++ p3.2.2),
          some p3.1, p3.2.1⟩

/-- Line 138: whether this file set the `file_processed` flag. -/
def fileConverted (r : FileResult) : Bool :=
  r.artifact.isSome

/-- Lines 40-148: the whole `if uploaded_files:` block.  Nothing happens on
an empty upload list; otherwise every file is processed in order and exactly
one aggregate message closes the batch. -/
def runApp (files : List FileInput) : List Msg :=
  if files.isEmpty then []
  else
    let results := files.map processFile
    (results.map FileResult.messages).flatten
      ++ [if results.any fileConverted then Msg.batchComplete
          else Msg.noneConverted]

/-- The generic keep-by-flags filter used to state what deduplication keeps:
the rows paired with a `false` flag, in their original order. -/
def filterByFlags (rows : List Row) (flags : List Bool) : List Row :=
  (rows.zip flags).filterMap (fun q => if q.2 then none else some q.1)

/-- The two aggregate messages that close a batch; every other message is
per-file. -/
def isAggregate : Msg → Bool
  | Msg.batchComplete => true
  | Msg.noneConverted => true
  | _ => false

/-- A supported upload that parses to a header-only, zero-row table. -/
def sampleEmptyCsv : FileInput :=
  ⟨"a.csv", 10, Except.ok ⟨["x"], [DType.tnum], []⟩,
    false, false, false, false, Target.csv, none⟩

/-- An upload with an unsupported extension. -/
def samplePdf : FileInput :=
  ⟨"notes.pdf", 3, Except.error "unused", false, false, false, false,
    Target.csv, none⟩

/-- A supported upload whose pandas reader raises. -/
def sampleBadJson : FileInput :=
  ⟨"b.json", 7, Except.error "Trailing data", false, false, false, false,
    Target.csv, none⟩

/-- A one-column numeric table whose single cell is absent. -/
def sampleNullTable : Table :=
  ⟨["a"], [DType.tnum], [[none]]⟩

/-- A one-file batch whose file parses and is successfully converted. -/
def sampleBatch : List FileInput :=
  [⟨"c.csv", 5, Except.ok ⟨["a"], [DType.tnum], [[some (Value.vnum 1)]]⟩,
    false, false, false, true, Target.json, none⟩]

lemma dupFlagsAux_length (rows : List Row) :
    ∀ seen, (dupFlagsAux seen rows).length = rows.length := by
  induction rows with
  | nil => intro seen; rfl
  | cons r rs ih => intro seen; simp [dupFlagsAux, ih]

lemma dedupAux_eq_filter (rows : List Row) :
    ∀ seen, dedupAux seen rows
      = ((rows.zip (dupFlagsAux seen rows)).filterMap
          (fun q => if q.2 then none else some q.1)) := by
  induction rows with
  | nil => intro seen; rfl
  | cons r rs ih =>
    intro seen
    by_cases h : r ∈ seen <;>
      simp [dedupAux, dupFlagsAux, h, ih (r :: seen)]

lemma dedupAux_length_add_count (rows : List Row) :
    ∀ seen, (dedupAux seen rows).length + (dupFlagsAux seen rows).count true
      = rows.length := by
  induction rows with
  | nil => intro seen; rfl
  | cons r rs ih =>
    intro seen
    by_cases h : r ∈ seen <;>
      simp [dedupAux, dupFlagsAux, h, List.count_cons] <;>
      have := ih (r :: seen) <;> omega

lemma dupFlagsAux_getD (rows : List Row) :
    ∀ seen i, i < rows.length →
      ((dupFlagsAux seen rows).getD i false = true
        ↔ rows.getD i [] ∈ seen ++ rows.take i) := by
  induction rows with
  | nil => intro seen i hi; simp at hi
  | cons r rs ih =>
    intro seen i hi
    cases i with
    | zero => simp [dupFlagsAux]
    | succ i =>
      have hi' : i < rs.length := by simpa using hi
      have := ih (r :: seen) i hi'
      simp only [dupFlagsAux, List.getD_cons_succ, List.take_succ_cons] at this ⊢
      rw [this]
      simp only [List.mem_append, List.mem_cons]
      tauto

lemma dedupAux_sublist (rows : List Row) :
    ∀ seen, (dedupAux seen rows).Sublist rows := by
  induction rows with
  | nil => intro seen; simp [dedupAux]
  | cons r rs ih =>
    intro seen
    by_cases h : r ∈ seen
    · rw [show dedupAux seen (r :: rs) = dedupAux (r :: seen) rs from by
        simp [dedupAux, h]]
      exact (ih (r :: seen)).cons r
    · rw [show dedupAux seen (r :: rs) = r :: dedupAux (r :: seen) rs from by
        simp [dedupAux, h]]
      exact (ih (r :: seen)).cons₂ r

lemma dedupRows_of_count_zero (rows : List Row) (h : dupCount rows = 0) :
    dedupRows rows = rows := by
  have hlen := dedupAux_length_add_count rows []
  have : (dedupRows rows).length = rows.length := by
    unfold dedupRows
    unfold dupCount dupFlags at h
    omega
  exact (dedupAux_sublist rows []).eq_of_length this

/-- C1: the duplicate-removal step removes exactly the rows equal to an
earlier row (all cell values equal), keeps the first occurrence of each,
preserves the relative order of the survivors, reports the number of rows it
removed, and reports a distinct no-duplicates message when that number is
zero. -/
theorem dedupStep_removes_exactly_earlier_duplicates (t : Table) :
    ((dedupStep t).1.cols = t.cols ∧ (dedupStep t).1.dtypes = t.dtypes) ∧
    (dedupStep t).1.rows = filterByFlags t.rows (dupFlags t.rows) ∧
    (∀ i, i < t.rows.length →
      ((dupFlags t.rows).getD i false = true ↔ t.rows.getD i [] ∈ t.rows.take i)) ∧
    t.rows.length - (dedupStep t).1.rows.length = dupCount t.rows ∧
    (dedupStep t).2 =
      (if 0 < dupCount t.rows then
        [Msg.dupRemoved (t.rows.length - (dedupStep t).1.rows.length)]
       else [Msg.noDups]) := by
  have hfilter : dedupRows t.rows = filterByFlags t.rows (dupFlags t.rows) :=
    dedupAux_eq_filter t.rows []
  have hgetD : ∀ i, i < t.rows.length →
      ((dupFlags t.rows).getD i false = true ↔ t.rows.getD i [] ∈ t.rows.take i) := by
    intro i hi
    simpa using dupFlagsAux_getD t.rows [] i hi
  have hlen : (dedupRows t.rows).length + dupCount t.rows = t.rows.length :=
    dedupAux_length_add_count t.rows []
  by_cases h : 0 < dupCount t.rows
  · have hlen' : (filterByFlags t.rows (dupFlags t.rows)).length + dupCount t.rows
        = t.rows.length := by rw [← hfilter]; exact hlen
    refine ⟨⟨?_, ?_⟩, ?_, hgetD, ?_, ?_⟩ <;>
      simp [dedupStep, h, hfilter] <;> omega
  · have h0 : dupCount t.rows = 0 := Nat.eq_zero_of_not_pos h
    have hid : dedupRows t.rows = t.rows := dedupRows_of_count_zero t.rows h0
    refine ⟨⟨?_, ?_⟩, ?_, hgetD, ?_, ?_⟩ <;>
      simp [dedupStep, h, h0, ← hfilter, hid]

lemma dedupAux_nodup_and_fresh (rows : List Row) :
    ∀ seen, (dedupAux seen rows).Nodup
      ∧ ∀ a ∈ dedupAux seen rows, a ∉ seen := by
  induction rows with
  | nil => intro seen; simp [dedupAux]
  | cons r rs ih =>
    intro seen
    by_cases h : r ∈ seen <;> simp only [dedupAux, h, if_true, if_false, reduceIte]
    · exact ⟨(ih (r :: seen)).1, fun a ha =>
        fun hs => (ih (r :: seen)).2 a ha (List.mem_cons_of_mem r hs)⟩
    · constructor
      · refine List.nodup_cons.mpr ⟨?_, (ih (r :: seen)).1⟩
        intro hr
        exact (ih (r :: seen)).2 r hr (List.mem_cons_self r seen)
      · intro a ha
        rcases List.mem_cons.mp ha with rfl | ha'
        · exact h
        · intro hs
          exact (ih (r :: seen)).2 a ha' (List.mem_cons_of_mem r hs)

lemma dupFlagsAux_count_zero (rows : List Row) :
    ∀ seen, rows.Nodup → (∀ a ∈ rows, a ∉ seen)
      → (dupFlagsAux seen rows).count true = 0 := by
  induction rows with
  | nil => intro seen _ _; rfl
  | cons r rs ih =>
    intro seen hnd hfresh
    have hr : r ∉ seen := hfresh r (List.mem_cons_self r rs)
    simp only [dupFlagsAux, List.count_cons, hr, decide_False]
    have : (dupFlagsAux (r :: seen) rs).count true = 0 := by
      refine ih (r :: seen) (List.nodup_cons.mp hnd).2 ?_
      intro a ha hmem
      rcases List.mem_cons.mp hmem with rfl | h'
      · exact (List.nodup_cons.mp hnd).1 ha
      · exact hfresh a (List.mem_cons_of_mem r ha) h'
    simp [this]

lemma dupCount_dedupStep_zero (t : Table) :
    dupCount (dedupStep t).1.rows = 0 := by
  by_cases h : 0 < dupCount t.rows
  · have hnd := dedupAux_nodup_and_fresh t.rows []
    simp only [dedupStep, h, if_true, reduceIte]
    exact dupFlagsAux_count_zero (dedupRows t.rows) [] hnd.1 (by simp)
  · simpa [dedupStep, h] using Nat.eq_zero_of_not_pos h

lemma dupFlagsAux_count_range (rows : List Row) :
    ∀ seen, (dupFlagsAux seen rows).count true
      = (List.range rows.length).countP
          (fun i => decide (rows.getD i [] ∈ seen ++ rows.take i)) := by
  induction rows with
  | nil => intro seen; rfl
  | cons r rs ih =>
    intro seen
    rw [List.length_cons, List.range_succ_eq_map]
    rw [List.countP_cons, List.countP_map]
    have hcongr : ∀ i ∈ List.range rs.length,
        ((fun i => decide ((r :: rs).getD i [] ∈ seen ++ (r :: rs).take i))
            ∘ Nat.succ) i = true
          ↔ (fun i => decide (rs.getD i [] ∈ (r :: seen) ++ rs.take i)) i
              = true := by
      intro i _
      simp only [Function.comp_apply, List.getD_cons_succ, List.take_succ_cons,
        decide_eq_true_eq, List.mem_append, List.mem_cons]
      tauto
    rw [List.countP_congr hcongr, ← ih (r :: seen)]
    simp [dupFlagsAux, List.count_cons, Nat.add_comm]

/-- C8: deduplication is idempotent — run a second time it removes no row
and reports the no-duplicates message — and the count the first run reports
equals the number of rows of the original table that duplicate an earlier
row. -/
theorem dedupStep_idempotent (t : Table) :
    dedupStep (dedupStep t).1 = ((dedupStep t).1, [Msg.noDups]) ∧
    dupCount t.rows
      = (List.range t.rows.length).countP
          (fun i => decide (t.rows.getD i [] ∈ t.rows.take i)) := by
  constructor
  · have h0 := dupCount_dedupStep_zero t
    generalize hd : (dedupStep t).1 = d at h0 ⊢
    simp [dedupStep, h0]
  · simpa using dupFlagsAux_count_range t.rows []

lemma missingCount_eq_zero_cells (t : Table) (h : missingCount t = 0) :
    ∀ r ∈ t.rows, ∀ c ∈ r, c.isNone = false := by
  intro r hr c hc
  unfold missingCount at h
  rw [List.sum_eq_zero_iff] at h
  have hzero : r.countP (fun c => c.isNone) = 0 :=
    h _ (List.mem_map_of_mem (fun r => r.countP (fun c => c.isNone)) hr)
  cases c with
  | none =>
    have := List.countP_eq_zero.mp hzero none hc
    simp at this
  | some v => rfl

lemma getD_getD_map_fillCell (rows : List Row) (i j : Nat) :
    ((rows.map (fun r => r.map fillCell)).getD i []).getD j (some (Value.vstr ""))
      = fillCell ((rows.getD i []).getD j (some (Value.vstr ""))) := by
  rw [List.getD_eq_getElem?_getD (rows.map (fun r => r.map fillCell)) i,
    List.getElem?_map, List.getD_eq_getElem?_getD rows i]
  cases hrow : rows[i]? with
  | none => simp [fillCell]
  | some r =>
    simp only [Option.map_some', Option.getD_some]
    rw [List.getD_eq_getElem?_getD (r.map fillCell) j, List.getElem?_map,
      List.getD_eq_getElem?_getD r j]
    cases hc : r[j]? with
    | none => simp [fillCell]
    | some c => simp

lemma cell_none_missingCount_pos (t : Table) (i j : Nat)
    (hi : i < t.rows.length) (hj : j < (t.rows.getD i []).length)
    (hnull : (t.rows.getD i []).getD j (some (Value.vnum 0)) = none) :
    0 < missingCount t := by
  by_contra h
  have h0 : missingCount t = 0 := Nat.eq_zero_of_not_pos h
  have hr : t.rows.getD i [] ∈ t.rows := by
    rw [List.getD_eq_getElem t.rows [] hi]
    exact List.getElem_mem hi
  have hc : (t.rows.getD i []).getD j (some (Value.vnum 0)) ∈ t.rows.getD i [] := by
    rw [List.getD_eq_getElem _ _ hj]
    exact List.getElem_mem hj
  rw [hnull] at hc
  have := missingCount_eq_zero_cells t h0 _ hr none hc
  simp at this

/-- C2: the missing-value step reports exactly the number of absent cells,
replaces each absent cell with the sentinel string "Missing", leaves every
present cell unchanged, and reports a distinct no-missing-values message
when the count is zero. -/
theorem fillStep_fills_missing_cells (t : Table) :
    (fillStep t).2 =
      (if 0 < missingCount t then [Msg.missFilled (missingCount t)]
       else [Msg.noMissing]) ∧
    missingCount t
      = (t.rows.map (fun r => r.countP (fun c => decide (c = none)))).sum ∧
    (fillStep t).1.cols = t.cols ∧
    (fillStep t).1.rows.length = t.rows.length ∧
    (∀ i, i < t.rows.length →
      ((fillStep t).1.rows.getD i []).length = (t.rows.getD i []).length) ∧
    (∀ i j,
      ((fillStep t).1.rows.getD i []).getD j (some (Value.vstr ""))
        = (match (t.rows.getD i []).getD j (some (Value.vstr "")) with
           | none => some (Value.vstr "Missing")
           | some v => some v)) := by
  have hcount : missingCount t
      = (t.rows.map (fun r => r.countP (fun c => decide (c = none)))).sum := by
    unfold missingCount
    congr 1
    refine List.map_congr_left ?_
    intro r _
    refine List.countP_congr ?_
    intro c _
    cases c <;> simp
  by_cases h : 0 < missingCount t
  · refine ⟨by simp [fillStep, h], hcount, by simp [fillStep, h],
      by simp [fillStep, h], ?_, ?_⟩
    · intro i hi
      simp only [fillStep, h, reduceIte]
      rw [List.getD_eq_getElem?_getD, List.getElem?_map,
        List.getD_eq_getElem?_getD t.rows]
      cases hrow : t.rows[i]? <;> simp
    · intro i j
      simp only [fillStep, h, reduceIte]
      rw [getD_getD_map_fillCell]
      cases (t.rows.getD i []).getD j (some (Value.vstr "")) <;> rfl
  · have h0 : missingCount t = 0 := Nat.eq_zero_of_not_pos h
    refine ⟨by simp [fillStep, h], hcount, by simp [fillStep, h],
      by simp [fillStep, h], by intro i hi; simp [fillStep, h], ?_⟩
    intro i j
    simp only [fillStep, h, reduceIte]
    cases hcell : (t.rows.getD i []).getD j (some (Value.vstr "")) with
    | some v => rfl
    | none =>
      exfalso
      have hi : i < t.rows.length := by
        by_contra hi
        rw [List.getD_eq_default t.rows _ (Nat.le_of_not_lt hi)] at hcell
        simp at hcell
      have hj : j < (t.rows.getD i []).length := by
        by_contra hj
        rw [List.getD_eq_default _ _ (Nat.le_of_not_lt hj)] at hcell
        simp at hcell
      have hr : t.rows.getD i [] ∈ t.rows := by
        rw [List.getD_eq_getElem t.rows [] hi]
        exact List.getElem_mem hi
      have hc : (none : Option Value) ∈ t.rows.getD i [] := by
        rw [← hcell, List.getD_eq_getElem _ _ hj]
        exact List.getElem_mem hj
      have := missingCount_eq_zero_cells t h0 _ hr none hc
      simp at this

lemma getD_records (cols : List String) (rows : List Row) (i j : Nat)
    (hi : i < rows.length) (hj : j < cols.length)
    (hjr : j < (rows[i]).length) :
    ((rows.map (fun r => cols.zip (r.map cellToJson))).getD i []).getD j
        ("", JsonVal.jnull)
      = (cols[j], cellToJson ((rows[i])[j])) := by
  have h1 : (rows.map (fun r => cols.zip (r.map cellToJson))).getD i []
      = cols.zip ((rows[i]).map cellToJson) := by
    rw [List.getD_eq_getElem _ [] (by simpa using hi), List.getElem_map]
  rw [h1]
  have hz : j < (cols.zip ((rows[i]).map cellToJson)).length := by
    rw [List.length_zip]
    simp only [List.length_map]
    omega
  rw [List.getD_eq_getElem _ _ hz, List.getElem_zip, List.getElem_map]

/-- C7: after the missing-value fill, the JSON export is the
record-oriented, indent-4 serialization, and every formerly-absent cell of
a numeric column appears in its record as the string "Missing", not as the
null token. -/
theorem json_export_renders_filled_nulls (t : Table) (j : Nat)
    (hj : j < t.cols.length)
    (hrect : ∀ r ∈ t.rows, r.length = t.cols.length)
    (_hnum : t.dtypes.getD j DType.tobj = DType.tnum)
    (i : Nat) (hi : i < t.rows.length)
    (hnull : (t.rows.getD i []).getD j (some (Value.vnum 0)) = none) :
    (serialize Target.json (fillStep t).1).1
        = ExportContent.jsonRecords 4 (toJsonRecords (fillStep t).1) ∧
    (serialize Target.json (fillStep t).1).2 = "application/json" ∧
    ((toJsonRecords (fillStep t).1).getD i []).getD j ("", JsonVal.jnull)
        = (t.cols.getD j "", JsonVal.jstr "Missing") ∧
    JsonVal.jstr "Missing" ≠ JsonVal.jnull := by
  have hrow : t.rows.getD i [] ∈ t.rows := by
    rw [List.getD_eq_getElem t.rows [] hi]
    exact List.getElem_mem hi
  have hjrow : j < (t.rows.getD i []).length := by
    rw [hrect _ hrow]; exact hj
  have hpos : 0 < missingCount t := cell_none_missingCount_pos t i j hi hjrow hnull
  refine ⟨rfl, rfl, ?_, by simp⟩
  have hri : t.rows.getD i [] = t.rows[i] := List.getD_eq_getElem t.rows [] hi
  have hjri : j < (t.rows[i]).length := hri ▸ hjrow
  have hmaplen : i < (t.rows.map (fun (r : Row) => r.map fillCell)).length := by
    simpa using hi
  have hjlen : j < ((t.rows.map (fun (r : Row) => r.map fillCell))[i]).length := by
    simp only [List.getElem_map, List.length_map]
    exact hjri
  simp only [fillStep, hpos, reduceIte, toJsonRecords]
  rw [getD_records t.cols (t.rows.map (fun (r : Row) => r.map fillCell)) i j
    hmaplen hj hjlen]
  have hcell0 : (t.rows[i])[j] = none := by
    rw [← List.getD_eq_getElem (t.rows[i]) (some (Value.vnum 0)) hjri, ← hri]
    exact hnull
  simp only [List.getElem_map]
  rw [hcell0, List.getD_eq_getElem t.cols "" hj]
  rfl

/-- C3: the filename derivation is NOT "replace the trailing extension,
leave every other character unchanged": `str.replace` works on the
lower-cased extension, so an upper-case extension is never replaced at all
("data.CSV" converted to JSON keeps the name "data.CSV" instead of becoming
"data.json"), and every interior occurrence of the extension substring is
rewritten as well ("report.csv.csv" becomes "report.json.json" instead of
"report.csv.json"). -/
theorem deriveFileName_misses_trailing_extension :
    detectExt "data.CSV" = ".csv" ∧
    deriveFileName "data.CSV" (detectExt "data.CSV") Target.json = "data.CSV" ∧
    "data.CSV" ≠ "data.json" ∧
    detectExt "report.csv.csv" = ".csv" ∧
    deriveFileName "report.csv.csv" (detectExt "report.csv.csv") Target.json
      = "report.json.json" ∧
    "report.json.json" ≠ "report.csv.json" := by
  refine ⟨rfl, by decide, by decide, rfl, by decide, by decide⟩

lemma runApp_cons_skip (f : FileInput) (m : Msg)
    (h : processFile f = ⟨[m], none, none⟩) (rest : List FileInput) :
    runApp (f :: rest)
      = m :: (if rest.isEmpty then [Msg.noneConverted] else runApp rest) := by
  cases rest with
  | nil => simp [runApp, h, fileConverted]
  | cons g gs => simp [runApp, h, fileConverted]

lemma processFile_unsupported (f : FileInput)
    (h : detectExt f.name ∉ SUPPORTED_TYPES) :
    processFile f = ⟨[Msg.errUnsupported (detectExt f.name)], none, none⟩ := by
  simp [processFile, h]

lemma processFile_parse_error (f : FileInput) (e : String)
    (hext : detectExt f.name ∈ SUPPORTED_TYPES)
    (hparse : f.parse = Except.error e) :
    processFile f = ⟨[Msg.errReading f.name e], none, none⟩ := by
  simp [processFile, hext, hparse]

lemma processFile_empty (f : FileInput) (t : Table)
    (hext : detectExt f.name ∈ SUPPORTED_TYPES)
    (hparse : f.parse = Except.ok t) (hrows : t.rows = []) :
    processFile f = ⟨[Msg.warnEmpty f.name], none, none⟩ := by
  have hempty : tableEmpty t = true := by simp [tableEmpty, hrows]
  simp [processFile, hext, hparse, hempty]

/-- C4: a file that parses to a zero-row table is skipped with a warning
(a message distinct from the parse-error message): it yields no table state,
no cleaning, no chart and no artifact, and the rest of the batch is
processed unchanged. -/
theorem empty_table_skipped (f : FileInput) (t : Table)
    (hext : detectExt f.name ∈ SUPPORTED_TYPES)
    (hparse : f.parse = Except.ok t) (hrows : t.rows = []) :
    processFile f = ⟨[Msg.warnEmpty f.name], none, none⟩ ∧
    (∀ rest, runApp (f :: rest)
      = Msg.warnEmpty f.name
          :: (if rest.isEmpty then [Msg.noneConverted] else runApp rest)) ∧
    (∀ n e, Msg.warnEmpty f.name ≠ Msg.errReading n e) := by
  have hp := processFile_empty f t hext hparse hrows
  exact ⟨hp, fun rest => runApp_cons_skip f _ hp rest, fun n e => by simp⟩

lemma foldl_basename_suffix (l : List Char) :
    ∀ acc s, acc.IsSuffix s
      → (l.foldl (fun acc c => if c = '/' then [] else acc ++ [c]) acc).IsSuffix
          (s ++ l) := by
  induction l with
  | nil => intro acc s h; simpa using h
  | cons c cs ih =>
    intro acc s h
    have hstep : (if c = '/' then [] else acc ++ [c]).IsSuffix (s ++ [c]) := by
      by_cases hc : c = '/'
      · simp [hc]
      · obtain ⟨u, hu⟩ := h
        refine ⟨u, ?_⟩
        simp only [hc, reduceIte]
        rw [← List.append_assoc, hu]
    have := ih (if c = '/' then [] else acc ++ [c]) (s ++ [c]) hstep
    simpa [List.append_assoc] using this

lemma dropLeadingDots_suffix (l : List Char) :
    (dropLeadingDots l).IsSuffix l := by
  induction l with
  | nil => exact List.suffix_rfl
  | cons c cs ih =>
    by_cases hc : c = '.'
    · simp only [dropLeadingDots, hc, reduceIte]
      exact ih.trans (List.suffix_cons '.' cs)
    · simp [dropLeadingDots, hc]

lemma lastDotSuffix_suffix (l : List Char) :
    ∀ t, lastDotSuffix l = some t → t.IsSuffix l := by
  induction l with
  | nil => intro t ht; simp [lastDotSuffix] at ht
  | cons c cs ih =>
    intro t ht
    simp only [lastDotSuffix] at ht
    cases hrec : lastDotSuffix cs with
    | some u =>
      rw [hrec] at ht
      cases ht
      exact (ih t hrec).trans (List.suffix_cons c cs)
    | none =>
      rw [hrec] at ht
      by_cases hc : c = '.'
      · subst hc
        rw [if_pos rfl] at ht
        cases ht
        exact List.suffix_rfl
      · simp [hc] at ht

lemma splitextExtChars_suffix (l : List Char) :
    (splitextExtChars l).IsSuffix l := by
  unfold splitextExtChars
  cases h : lastDotSuffix (dropLeadingDots (basenameChars l)) with
  | none => simp
  | some t =>
    have h1 : t.IsSuffix (dropLeadingDots (basenameChars l)) :=
      lastDotSuffix_suffix _ t h
    have h2 := dropLeadingDots_suffix (basenameChars l)
    have h3 : (basenameChars l).IsSuffix l := by
      have := foldl_basename_suffix l [] [] List.nil_suffix
      simpa [basenameChars] using this
    exact (h1.trans h2).trans h3

/-- C5: the format detector lower-cases the extension `os.path.splitext`
extracts (a suffix of the lower-cased filename), classifies it against the
four supported extensions, and an unrecognised extension is rejected with a
visible message before any parse result is consulted while the rest of the
batch is processed unchanged. -/
theorem unsupported_extension_rejected (f : FileInput)
    (h : detectExt f.name ∉ SUPPORTED_TYPES) :
    SUPPORTED_TYPES = [".csv", ".xlsx", ".json", ".txt"] ∧
    detectExt f.name = lowerStr ⟨splitextExtChars f.name.data⟩ ∧
    (detectExt f.name).data.IsSuffix (lowerStr f.name).data ∧
    processFile f = ⟨[Msg.errUnsupported (detectExt f.name)], none, none⟩ ∧
    (∀ rest, runApp (f :: rest)
      = Msg.errUnsupported (detectExt f.name)
          :: (if rest.isEmpty then [Msg.noneConverted] else runApp rest)) := by
  have hp := processFile_unsupported f h
  refine ⟨rfl, rfl, ?_, hp, fun rest => runApp_cons_skip f _ hp rest⟩
  have hsuff := splitextExtChars_suffix f.name.data
  obtain ⟨pre, hpre⟩ := hsuff
  exact ⟨pre.map Char.toLower, by
    show (pre.map Char.toLower) ++ _ = _
    simp [detectExt, lowerStr, ← List.map_append, hpre]⟩

/-- C6: a parse failure is reported with the file name and the underlying
error text, the file contributes no table and no artifact downstream, and
the rest of the batch is processed unchanged. -/
theorem parse_error_skipped (f : FileInput) (e : String)
    (hext : detectExt f.name ∈ SUPPORTED_TYPES)
    (hparse : f.parse = Except.error e) :
    processFile f = ⟨[Msg.errReading f.name e], none, none⟩ ∧
    ∀ rest, runApp (f :: rest)
      = Msg.errReading f.name e
          :: (if rest.isEmpty then [Msg.noneConverted] else runApp rest) := by
  have hp := processFile_parse_error f e hext hparse
  exact ⟨hp, fun rest => runApp_cons_skip f _ hp rest⟩

lemma dedupStep_msgs_not_aggregate (t : Table) :
    ∀ m ∈ (dedupStep t).2, isAggregate m = false := by
  intro m hm
  by_cases h : 0 < dupCount t.rows <;>
    simp [dedupStep, h] at hm <;> subst hm <;> rfl

lemma fillStep_msgs_not_aggregate (t : Table) :
    ∀ m ∈ (fillStep t).2, isAggregate m = false := by
  intro m hm
  by_cases h : 0 < missingCount t <;>
    simp [fillStep, h] at hm <;> subst hm <;> rfl

lemma chartStep_msgs_not_aggregate (name : String) (t : Table) :
    ∀ m ∈ chartStep name t, isAggregate m = false := by
  intro m hm
  by_cases h : t.rows.isEmpty || (numericIdx t).isEmpty <;>
    simp [chartStep, h] at hm <;> subst hm <;> rfl

lemma convertBlock_msgs_not_aggregate (df : Table) (name ext : String)
    (target : Target) (err : Option String) :
    ∀ m ∈ (convertBlock df name ext target err).2.2, isAggregate m = false := by
  intro m hm
  cases err <;> simp [convertBlock] at hm <;> subst hm <;> rfl

lemma processFile_msgs_not_aggregate (f : FileInput) :
    ∀ m ∈ (processFile f).messages, isAggregate m = false := by
  intro m hm
  by_cases hext : detectExt f.name ∉ SUPPORTED_TYPES
  · rw [processFile_unsupported f hext] at hm
    simp at hm
    subst hm
    rfl
  · rw [not_not] at hext
    cases hparse : f.parse with
    | error e =>
      rw [processFile_parse_error f e hext hparse] at hm
      simp at hm
      subst hm
      rfl
    | ok df0 =>
      by_cases hempty : tableEmpty df0 = true
      · have : processFile f = ⟨[Msg.warnEmpty f.name], none, none⟩ := by
          simp [processFile, hext, hparse, hempty]
        rw [this] at hm
        simp at hm
        subst hm
        rfl
      · have hmsgs : (processFile f).messages =
            Msg.fileDetails f.name f.size ::
              ((if f.removeDuplicates then dedupStep df0 else (df0, [])).2 ++
               (if f.fillMissingValues then
                  fillStep (if f.removeDuplicates then dedupStep df0
                    else (df0, [])).1
                else ((if f.removeDuplicates then dedupStep df0
                    else (df0, [])).1, [])).2 ++
               (if f.showChart then
                  chartStep f.name
                    (if f.fillMissingValues then
                      fillStep (if f.removeDuplicates then dedupStep df0
                        else (df0, [])).1
                    else ((if f.removeDuplicates then dedupStep df0
                        else (df0, [])).1, [])).1
                else []) ++
               (if f.convertClicked then
                  convertBlock
                    (if f.fillMissingValues then
                      fillStep (if f.removeDuplicates then dedupStep df0
                        else (df0, [])).1
                    else ((if f.removeDuplicates then dedupStep df0
                        else (df0, [])).1, []) ).1
                    f.name (detectExt f.name) f.target f.exportError
                else ((if f.fillMissingValues then
                      fillStep (if f.removeDuplicates then dedupStep df0
                        else (df0, [])).1
                    else ((if f.removeDuplicates then dedupStep df0
                        else (df0, [])).1, []) ).1, none, [])).2.2) := by
          simp [processFile, hext, hparse, hempty]
        rw [hmsgs] at hm
        rcases List.mem_cons.mp hm with rfl | hm'
        · rfl
        rcases List.mem_append.mp hm' with hm2 | hconv
        rcases List.mem_append.mp hm2 with hm3 | hchart
        rcases List.mem_append.mp hm3 with hdup | hfill
        · by_cases hd : f.removeDuplicates <;> simp [hd] at hdup
          · exact dedupStep_msgs_not_aggregate df0 m hdup
        · by_cases hf : f.fillMissingValues <;> simp [hf] at hfill
          · exact fillStep_msgs_not_aggregate _ m hfill
        · by_cases hc : f.showChart <;> simp [hc] at hchart
          · exact chartStep_msgs_not_aggregate f.name _ m hchart
        · by_cases hcv : f.convertClicked <;> simp [hcv] at hconv
          · exact convertBlock_msgs_not_aggregate _ _ _ _ _ m hconv

lemma processFile_artifact_success (f : FileInput)
    (h : (processFile f).artifact.isSome = true) :
    Msg.convertSuccess f.name (targetLabel f.target)
      ∈ (processFile f).messages := by
  by_cases hext : detectExt f.name ∉ SUPPORTED_TYPES
  · rw [processFile_unsupported f hext] at h
    simp at h
  rw [not_not] at hext
  cases hparse : f.parse with
  | error e =>
    rw [processFile_parse_error f e hext hparse] at h
    simp at h
  | ok df0 =>
    by_cases hempty : tableEmpty df0 = true
    · rw [show processFile f = ⟨[Msg.warnEmpty f.name], none, none⟩ from by
        simp [processFile, hext, hparse, hempty]] at h
      simp at h
    · by_cases hcv : f.convertClicked
      · cases herr : f.exportError with
        | some e =>
          have : (processFile f).artifact = none := by
            simp [processFile, hext, hparse, hempty, hcv, convertBlock, herr]
          rw [this] at h
          simp at h
        | none =>
          simp [processFile, hext, hparse, hempty, hcv, convertBlock, herr]
      · have : (processFile f).artifact = none := by
          simp [processFile, hext, hparse, hempty, hcv]
        rw [this] at h
        simp at h

/-- C9: for a nonempty batch the run is the per-file messages followed by
exactly one aggregate message, which is "processing complete" precisely
when at least one file produced an artifact and "no files were converted"
otherwise; and every file that produced an artifact also got a per-file
success confirmation. -/
theorem batch_aggregate_message (files : List FileInput) (h : files ≠ []) :
    runApp files
      = ((files.map processFile).map FileResult.messages).flatten
          ++ [if (files.map processFile).any fileConverted
              then Msg.batchComplete else Msg.noneConverted] ∧
    (runApp files).count Msg.batchComplete
        + (runApp files).count Msg.noneConverted = 1 ∧
    ((files.map processFile).any fileConverted = true
        ↔ ∃ r ∈ files.map processFile, r.artifact.isSome = true) ∧
    (∀ g ∈ files, (processFile g).artifact.isSome = true →
        Msg.convertSuccess g.name (targetLabel g.target)
          ∈ (processFile g).messages) := by
  have hne : files.isEmpty = false := by
    cases files with
    | nil => exact absurd rfl h
    | cons g gs => rfl
  have hrun : runApp files
      = ((files.map processFile).map FileResult.messages).flatten
          ++ [if (files.map processFile).any fileConverted
              then Msg.batchComplete else Msg.noneConverted] := by
    simp [runApp, hne]
  refine ⟨hrun, ?_, ?_, ?_⟩
  · have hnotin : ∀ m : Msg, isAggregate m = true →
        m ∉ ((files.map processFile).map FileResult.messages).flatten := by
      intro m hagg hmem
      rw [List.mem_flatten] at hmem
      obtain ⟨l, hl, hml⟩ := hmem
      rw [List.mem_map] at hl
      obtain ⟨r, hr, rfl⟩ := hl
      rw [List.mem_map] at hr
      obtain ⟨g, _, rfl⟩ := hr
      rw [processFile_msgs_not_aggregate g m hml] at hagg
      exact Bool.false_ne_true hagg
    have hbc : ((files.map processFile).map FileResult.messages).flatten.count
        Msg.batchComplete = 0 :=
      List.count_eq_zero.mpr (hnotin Msg.batchComplete rfl)
    have hnc : ((files.map processFile).map FileResult.messages).flatten.count
        Msg.noneConverted = 0 :=
      List.count_eq_zero.mpr (hnotin Msg.noneConverted rfl)
    rw [hrun, List.count_append, List.count_append, hbc, hnc]
    by_cases hany : (files.map processFile).any fileConverted <;>
      simp [hany, List.count_singleton]
  · rw [List.any_eq_true]
    constructor
    · rintro ⟨r, hr, hc⟩
      exact ⟨r, hr, hc⟩
    · rintro ⟨r, hr, hc⟩
      exact ⟨r, hr, hc⟩
  · intro g _ hart
    exact processFile_artifact_success g hart

/-- C10: producing the export artifact never modifies the table: the
convert-and-download block returns the table it was given for every target
and every serializer outcome, and the file's final table state is the same
whether or not the conversion was requested. -/
theorem export_never_modifies_table (t : Table) (name ext : String)
    (target : Target) (err : Option String) (f : FileInput) :
    (convertBlock t name ext target err).1 = t ∧
    (processFile f).finalTable
      = (processFile { f with convertClicked := false }).finalTable := by
  constructor
  · cases err <;> rfl
  · by_cases hext : detectExt f.name ∉ SUPPORTED_TYPES
    · rw [processFile_unsupported f hext,
        processFile_unsupported { f with convertClicked := false } hext]
    · rw [not_not] at hext
      cases hparse : f.parse with
      | error e =>
        rw [processFile_parse_error f e hext hparse,
          processFile_parse_error
            { f with parse := Except.error e, convertClicked := false } e hext
            rfl]
      | ok df0 =>
        by_cases hempty : tableEmpty df0 = true
        · simp [processFile, hext, hparse, hempty]
        · by_cases hcv : f.convertClicked
          · cases herr : f.exportError <;>
              simp [processFile, hext, hparse, hempty, hcv, convertBlock, herr]
          · simp [processFile, hext, hparse, hempty, hcv]

/-- Witness for C4 at a concrete header-only CSV upload. -/
theorem empty_table_skipped_witness :
    detectExt "a.csv" ∈ SUPPORTED_TYPES ∧
    sampleEmptyCsv.parse = Except.ok ⟨["x"], [DType.tnum], []⟩ ∧
    (⟨["x"], [DType.tnum], []⟩ : Table).rows = [] ∧
    processFile sampleEmptyCsv = ⟨[Msg.warnEmpty "a.csv"], none, none⟩ :=
  ⟨by decide, rfl, rfl,
    (empty_table_skipped sampleEmptyCsv ⟨["x"], [DType.tnum], []⟩
      (by decide) rfl rfl).1⟩

/-- Witness for C5 at a concrete ".pdf" upload. -/
theorem unsupported_extension_rejected_witness :
    detectExt "notes.pdf" ∉ SUPPORTED_TYPES ∧
    processFile samplePdf
      = ⟨[Msg.errUnsupported (detectExt "notes.pdf")], none, none⟩ :=
  ⟨by decide, (unsupported_extension_rejected samplePdf (by decide)).2.2.2.1⟩

/-- Witness for C6 at a concrete upload whose reader raises. -/
theorem parse_error_skipped_witness :
    detectExt "b.json" ∈ SUPPORTED_TYPES ∧
    sampleBadJson.parse = Except.error "Trailing data" ∧
    processFile sampleBadJson
      = ⟨[Msg.errReading "b.json" "Trailing data"], none, none⟩ :=
  ⟨by decide, rfl,
    (parse_error_skipped sampleBadJson "Trailing data" (by decide) rfl).1⟩

/-- Witness for C7 at a one-column numeric table with one absent cell. -/
theorem json_export_renders_filled_nulls_witness :
    0 < sampleNullTable.cols.length ∧
    (∀ r ∈ sampleNullTable.rows, r.length = sampleNullTable.cols.length) ∧
    sampleNullTable.dtypes.getD 0 DType.tobj = DType.tnum ∧
    0 < sampleNullTable.rows.length ∧
    (sampleNullTable.rows.getD 0 []).getD 0 (some (Value.vnum 0)) = none ∧
    ((toJsonRecords (fillStep sampleNullTable).1).getD 0 []).getD 0
        ("", JsonVal.jnull)
      = (sampleNullTable.cols.getD 0 "", JsonVal.jstr "Missing") :=
  ⟨by decide, by decide, by decide, by decide, by decide,
    (json_export_renders_filled_nulls sampleNullTable 0 (by decide) (by decide)
      (by decide) 0 (by decide) (by decide)).2.2.1⟩

/-- Witness for C9 at a concrete one-file batch. -/
theorem batch_aggregate_message_witness :
    sampleBatch ≠ [] ∧
    (runApp sampleBatch).count Msg.batchComplete
      + (runApp sampleBatch).count Msg.noneConverted = 1 :=
  ⟨List.cons_ne_nil _ _,
    (batch_aggregate_message sampleBatch (List.cons_ne_nil _ _)).2.1⟩

end App
